import Mathlib

/-!
Verification of the referendum data pipeline in `pandas_questions.py`.

The pipeline's tables are modelled by a shallow embedding of pandas
DataFrames: a `DF` is a list of column names together with a list of rows,
where a row is a list of cells and a cell is an optional value (`none`
models a missing value / NaN; a present value is a string or a rational
number — vote counts are integers read into numeric columns, modelled as
`Rat` so that the ratio computation of `plot_referendum_map` stays exact).

Each pandas operation used by the source (`rename`, column selection,
column assignment, `merge` with `how="left"` and the `_x`/`_y` collision
suffixes, boolean-mask row filtering, `drop(columns=...)`,
`groupby(...).agg(...)` with sorted group keys and NaN keys dropped,
`astype(str)`, `str.zfill(2)`, `str.contains("Z")`, and NaN-propagating
arithmetic) is embedded as a function on `DF`, and the four pipeline
functions are translated statement by statement.
-/

namespace PandasQuestions

/-- A present cell value: a string or a (rational) number. -/
inductive Val where
  | str : String → Val
  | num : Rat → Val
  deriving DecidableEq, Repr

/-- A cell: `none` models pandas NaN / missing values. -/
abbrev Cell := Option Val

/-- A row is the list of its cells, in column order. -/
abbrev Row := List Cell

/-- A DataFrame: ordered column names and rows. -/
structure DF where
  cols : List String
  rows : List Row
  deriving DecidableEq, Repr

/-- A well-formed (rectangular) frame: every row has one cell per column. -/
def DF.wf (df : DF) : Bool :=
  df.rows.all (fun r => r.length == df.cols.length)

/-- `r[c]` for a row `r` of a frame with columns `cols`: the cell at the
first occurrence of column `c` (missing columns read as null; the source
never reads a column that is absent). -/
def getCol (cols : List String) (c : String) (r : Row) : Cell :=
  match cols.findIdx? (fun x => x == c) with
  | some i => r.getD i none
  | none => none

/-- `DataFrame.rename(columns=m)`: each column name is replaced by its
image under `m` when `m` lists it, and kept otherwise. -/
def renameCols (m : List (String × String)) (cols : List String) : List String :=
  cols.map (fun c => ((m.find? (fun p => p.1 == c)).map Prod.snd).getD c)

/-- `DataFrame.rename(columns=m)` on a frame (data unchanged). -/
def DF.rename (df : DF) (m : List (String × String)) : DF :=
  ⟨renameCols m df.cols, df.rows⟩

/-- `df[[c1, ..., cn]]`: column projection, in the given order. -/
def DF.select (df : DF) (cs : List String) : DF :=
  ⟨cs, df.rows.map (fun r => cs.map (fun c => getCol df.cols c r))⟩

/-- `df.drop(columns=[c])`. -/
def DF.dropCol (df : DF) (c : String) : DF :=
  df.select (df.cols.filter (fun x => x != c))

/-- Column list after `df[c] = ...`: unchanged when `c` exists, else `c`
is appended. -/
def setColCols (cols : List String) (c : String) : List String :=
  match cols.findIdx? (fun x => x == c) with
  | some _ => cols
  | none => cols ++ [c]

/-- One row after `df[c] = f(row)`: the cell at `c` is overwritten when
the column exists, else appended. -/
def setColRow (cols : List String) (c : String) (f : Row → Cell) (r : Row) : Row :=
  match cols.findIdx? (fun x => x == c) with
  | some i => r.set i (f r)
  | none => r ++ [f r]

/-- `df[c] = f(row)`: overwrite column `c` when present, else append it. -/
def DF.setCol (df : DF) (c : String) (f : Row → Cell) : DF :=
  ⟨setColCols df.cols c, df.rows.map (setColRow df.cols c f)⟩

/-- Join-key equality: pandas merge keys match on equal values, and —
unlike SQL — a NaN key matches a NaN key (`merge` factorizes the key
columns jointly, putting left-side and right-side NaN keys into one
shared group). -/
def cellKeyEq (a b : Cell) : Bool :=
  match a, b with
  | some x, some y => x == y
  | none, none => true
  | _, _ => false

/-- `left.merge(right, on=k, how="left")`: every left row is kept; it is
repeated once per matching right row, and padded with nulls when no right
row matches. Column names occurring on both sides (other than the key)
get the pandas suffixes `_x` (left) and `_y` (right). -/
def mergeOn (left right : DF) (k : String) : DF :=
  let overlap := fun c => c != k && left.cols.contains c && right.cols.contains c
  let lcols := left.cols.map (fun c => if overlap c then c ++ "_x" else c)
  let rsrc := right.cols.filter (fun c => c != k)
  let rcols := rsrc.map (fun c => if overlap c then c ++ "_y" else c)
  let rows := left.rows.flatMap (fun lr =>
    let key := getCol left.cols k lr
    let ms := (right.rows.filter (fun rr => cellKeyEq key (getCol right.cols k rr))).map
      (fun rr => lr ++ rsrc.map (fun c => getCol right.cols c rr))
    if ms.isEmpty then [lr ++ rsrc.map (fun _ => (none : Cell))] else ms)
  ⟨lcols ++ rcols, rows⟩

/-- `left.merge(right, left_on=lk, right_on=rk, how="left")`: as `mergeOn`
but both key columns are kept (distinct names on the two sides). -/
def mergeLeftRightOn (left right : DF) (lk rk : String) : DF :=
  let overlap := fun c => left.cols.contains c && right.cols.contains c
  let lcols := left.cols.map (fun c => if overlap c then c ++ "_x" else c)
  let rcols := right.cols.map (fun c => if overlap c then c ++ "_y" else c)
  let rows := left.rows.flatMap (fun lr =>
    let key := getCol left.cols lk lr
    let ms := (right.rows.filter (fun rr => cellKeyEq key (getCol right.cols rk rr))).map
      (fun rr => lr ++ right.cols.map (fun c => getCol right.cols c rr))
    if ms.isEmpty then [lr ++ right.cols.map (fun _ => (none : Cell))] else ms)
  ⟨lcols ++ rcols, rows⟩

/-- `str(v)` as `astype(str)` produces it: strings unchanged, integers in
decimal (the non-integer branch is never hit by this pipeline's data). -/
def valToStr : Val → String
  | .str s => s
  | .num q => if q.den = 1 then toString q.num else toString q.num ++ "/" ++ toString q.den

/-- `astype(str)` on one cell; pandas stringifies NaN as `"nan"`. -/
def cellToStr : Cell → String
  | some v => valToStr v
  | none => "nan"

/-- Python `s.zfill(2)`: left-pad with zeros to width 2, keeping a leading
sign in front of the padding; strings of length at least 2 are unchanged. -/
def zfill2 (s : String) : String :=
  match s.toList with
  | [] => "00"
  | [c] => if c = '-' ∨ c = '+' then String.mk [c, '0'] else String.mk ['0', c]
  | _ => s

/-- `.astype(str).str.zfill(2)` on one cell: always a non-null string. -/
def astypeStrZfill2 (c : Cell) : Cell :=
  some (.str (zfill2 (cellToStr c)))

/-- `s.str.contains("Z")` for the one-character pattern `"Z"`. -/
def containsZ (s : String) : Bool :=
  s.toList.contains 'Z'

/-- Read a cell as a string (the source only does so on columns it has
just filled with strings). -/
def cellStrD : Cell → String
  | some (.str s) => s
  | _ => ""

/-- Read a cell as a number; pandas sums skip NaN, i.e. count it as 0. -/
def cellNumD : Cell → Rat
  | some (.num q) => q
  | _ => 0

/-- NaN-propagating addition of two cells (`Series + Series`). -/
def cellAdd (a b : Cell) : Cell :=
  match a, b with
  | some (.num x), some (.num y) => some (.num (x + y))
  | _, _ => none

/-- NaN-propagating division of two cells (`Series / Series`); a zero
denominator yields a non-finite float (NaN or ±inf), modelled as null. -/
def cellDiv (a b : Cell) : Cell :=
  match a, b with
  | some (.num x), some (.num y) => if y = 0 then none else some (.num (x / y))
  | _, _ => none

/-- Lexicographic comparison of character lists (string order). -/
def strLeAux : List Char → List Char → Bool
  | [], _ => true
  | _ :: _, [] => false
  | a :: as, b :: bs => if a = b then strLeAux as bs else decide (a.val < b.val)

/-- Lexicographic string order (the order pandas sorts string keys by). -/
def strLe (a b : String) : Bool :=
  strLeAux a.toList b.toList

/-- The ordering pandas sorts group keys by (the keys of one grouping all
have one type; the cross-type cases are arbitrary tie-breaks). -/
def valLe : Val → Val → Bool
  | .str a, .str b => strLe a b
  | .num a, .num b => decide (a ≤ b)
  | .str _, .num _ => true
  | .num _, .str _ => false

/-- Insert into a `valLe`-sorted list. -/
def insertSorted (a : Val) : List Val → List Val
  | [] => [a]
  | b :: bs => if valLe a b then a :: b :: bs else b :: insertSorted a bs

/-- Sort values by `valLe` (pandas `groupby` sorts group keys). -/
def sortVals (l : List Val) : List Val :=
  l.foldr insertSorted []

/-- The group keys of `df.groupby(k)`: the distinct non-null values of
column `k`, sorted (`groupby` defaults: `dropna=True`, `sort=True`). -/
def groupKeys (df : DF) (k : String) : List Val :=
  sortVals ((df.rows.filterMap (fun r => getCol df.cols k r)).dedup)

/-- The rows of the group with key `v`. -/
def groupRows (df : DF) (k : String) (v : Val) : List Row :=
  df.rows.filter (fun r => getCol df.cols k r == some v)

/-- The two aggregation functions the source uses in `.agg(...)`. -/
inductive AggFun where
  | first
  | sum
  deriving DecidableEq, Repr

/-- `"first"` takes the first non-null cell of the group; `"sum"` adds the
numeric cells, skipping nulls (pandas default `skipna`). -/
def applyAgg : AggFun → List Cell → Cell
  | .first, cells => cells.findSome? id
  | .sum, cells => some (.num (cells.foldl (fun acc c => acc + cellNumD c) 0))

/-- `df.groupby(k).agg(out1=(src1, f1), ...)`: one row per group key, the
key itself in the leading (index) column — the index of the result is
modelled as its first column. -/
def groupbyAgg (df : DF) (k : String) (aggs : List (String × String × AggFun)) : DF :=
  ⟨k :: aggs.map (fun a => a.1),
   (groupKeys df k).map (fun v =>
     some v :: aggs.map (fun a =>
       applyAgg a.2.2 ((groupRows df k v).map (fun r => getCol df.cols a.2.1 r))))⟩

/-! ## The four pipeline functions (`pandas_questions.py`) -/

/-- `merge_regions_and_departments` (lines 25-51): rename the region and
department columns, left-join departments onto
`regions[["code_reg", "name_reg"]]` on `code_reg`, and keep the four
columns `code_reg`, `name_reg`, `code_dep`, `name_dep` in that order. -/
def merge_regions_and_departments (regions departments : DF) : DF :=
  let regions2 := regions.rename [("code", "code_reg"), ("name", "name_reg")]
  let departments2 := departments.rename
    [("code", "code_dep"), ("name", "name_dep"), ("region_code", "code_reg")]
  let merged := mergeOn departments2 (regions2.select ["code_reg", "name_reg"]) "code_reg"
  merged.select ["code_reg", "name_reg", "code_dep", "name_dep"]

/-- Lines 64-70: `referendum = referendum.copy()`, then
`referendum["code_dep"] = referendum["Department code"].astype(str).str.zfill(2)`
and `referendum["name_dep"] = referendum["Department name"]`. -/
def refNormalized (referendum : DF) : DF :=
  let r1 := referendum.setCol "code_dep"
    (fun r => astypeStrZfill2 (getCol referendum.cols "Department code" r))
  r1.setCol "name_dep" (fun r => getCol r1.cols "Department name" r)

/-- Lines 71-76: `regions_and_departments["code_dep"] =
regions_and_departments["code_dep"].astype(str).str.zfill(2)`. -/
def radNormalized (rad : DF) : DF :=
  rad.setCol "code_dep" (fun r => astypeStrZfill2 (getCol rad.cols "code_dep" r))

/-- Lines 77-79: `referendum = referendum[~referendum["code_dep"].str.contains("Z")]`. -/
def refFiltered (referendum : DF) : DF :=
  let r2 := refNormalized referendum
  ⟨r2.cols, r2.rows.filter (fun r => !(containsZ (cellStrD (getCol r2.cols "code_dep" r))))⟩

/-- `merge_referendum_and_areas` (lines 54-87): normalize both `code_dep`
columns, drop referendum rows whose code contains `Z`, left-join on
`code_dep`, drop the area-side `name_dep_y` and rename `name_dep_x` back
to `name_dep`. -/
def merge_referendum_and_areas (referendum rad : DF) : DF :=
  let merged := mergeOn (refFiltered referendum) (radNormalized rad) "code_dep"
  (merged.dropCol "name_dep_y").rename [("name_dep_x", "name_dep")]

/-- `compute_referendum_result_by_regions` (lines 90-109): group by
`code_reg`, take the first region name and sum the five count columns. -/
def compute_referendum_result_by_regions (referendum_and_areas : DF) : DF :=
  groupbyAgg referendum_and_areas "code_reg"
    [("name_reg", ("name_reg", AggFun.first)),
     ("Registered", ("Registered", AggFun.sum)),
     ("Abstentions", ("Abstentions", AggFun.sum)),
     ("Null", ("Null", AggFun.sum)),
     ("Choice A", ("Choice A", AggFun.sum)),
     ("Choice B", ("Choice B", AggFun.sum))]

/-- `plot_referendum_map` (lines 112-139): left-join the geometry table
(loaded from `regions.geojson`, here a parameter) onto the regional
results (`reset_index()` is the identity here since the result index is
modelled as its leading column), then
`merged["ratio"] = merged["Choice A"] / (merged["Choice A"] + merged["Choice B"])`.
The `merged.plot(...)` call only renders and does not change the data. -/
def plot_referendum_map (geo referendum_result_by_regions : DF) : DF :=
  let merged := mergeLeftRightOn geo referendum_result_by_regions "code" "code_reg"
  merged.setCol "ratio" (fun r =>
    cellDiv (getCol merged.cols "Choice A" r)
      (cellAdd (getCol merged.cols "Choice A" r) (getCol merged.cols "Choice B" r)))

/-! ## Input schemas

The loader (`load_data`, section 6 of the design: the referendum file has
columns "Department code", "Department name", Registered, Abstentions,
Null, "Choice A", "Choice B"; the regions file has columns code, name;
the departments file has columns code, name, region_code; the geo file
has a region code, a name and a geometry) fixes the column lists of the
pipeline's input tables; their rows are arbitrary. -/

/-- Columns of the referendum table. -/
def refCols : List String :=
  ["Department code", "Department name", "Registered", "Abstentions", "Null",
   "Choice A", "Choice B"]

/-- Columns of `regions_and_departments` (output of the area merger). -/
def radCols : List String :=
  ["code_reg", "name_reg", "code_dep", "name_dep"]

/-- Columns of the regions table. -/
def regCols : List String := ["code", "name"]

/-- Columns of the departments table. -/
def depCols : List String := ["code", "name", "region_code"]

/-- Columns of the geometry table read from `regions.geojson`. -/
def geoCols : List String := ["code", "nom", "geometry"]

/-- Columns of the regional result table once its index is a column. -/
def resCols : List String :=
  ["code_reg", "name_reg", "Registered", "Abstentions", "Null", "Choice A", "Choice B"]

/-- Columns of `merge_referendum_and_areas`'s output on those schemas. -/
def mergedCols : List String :=
  refCols ++ ["code_dep", "name_dep", "code_reg", "name_reg"]

/-- Columns of `plot_referendum_map`'s output on those schemas. -/
def mapCols : List String := geoCols ++ resCols ++ ["ratio"]

/-- A referendum row (schema `refCols`) after the two column assignments
of `merge_referendum_and_areas`: the normalized code and the copied
department name are appended. -/
def refRowNorm (r : Row) : Row :=
  r ++ [astypeStrZfill2 (r.getD 0 none), r.getD 1 none]

/-- An area row (schema `radCols`) after its `code_dep` is normalized. -/
def radRowNorm (a : Row) : Row :=
  a.set 2 (astypeStrZfill2 (a.getD 2 none))

/-- Whether a referendum row's normalized department code contains the
overseas marker `Z` (the row filter of `merge_referendum_and_areas`). -/
def hasZ (r : Row) : Bool :=
  containsZ (zfill2 (cellToStr (r.getD 0 none)))

/-- The area rows whose normalized `code_dep` equals the referendum
row's normalized department code. -/
def areaMatches (A : List Row) (r : Row) : List Row :=
  A.filter (fun a => cellKeyEq (astypeStrZfill2 (r.getD 0 none)) (astypeStrZfill2 (a.getD 2 none)))

/-- A merged referendum row joined to the matching area row `a`. -/
def outRowM (r a : Row) : Row :=
  r ++ [astypeStrZfill2 (r.getD 0 none), r.getD 1 none, a.getD 0 none, a.getD 1 none]

/-- A merged referendum row with no matching area row (null region). -/
def outRowU (r : Row) : Row :=
  r ++ [astypeStrZfill2 (r.getD 0 none), r.getD 1 none, none, none]

/-- The area row a department row joins to in
`merge_regions_and_departments`: region code from the department itself
(it is the join key of the left table), region name from the matching
region row when one exists. -/
def regJoinRow (G : List Row) (d : Row) : Row :=
  [d.getD 2 none,
   (G.find? (fun g => cellKeyEq (d.getD 2 none) (g.getD 0 none))).bind (fun g => g.getD 1 none),
   d.getD 0 none, d.getD 1 none]

/-- The regional result rows matching a geometry row's `code`. -/
def resMatches (R : List Row) (g : Row) : List Row :=
  R.filter (fun r => cellKeyEq (g.getD 0 none) (r.getD 0 none))

/-- A map row for a geometry row joined to result row `r`, with ratio. -/
def mapRowM (g r : Row) : Row :=
  (g ++ r) ++ [cellDiv (r.getD 5 none) (cellAdd (r.getD 5 none) (r.getD 6 none))]

/-- A map row for a geometry row with no matching regional result. -/
def mapRowU (g : Row) : Row :=
  (g ++ [none, none, none, none, none, none, none]) ++ [none]

/-- The sum, over all rows of region `v`, of numeric column `c`. -/
def regionSum (df : DF) (v : Val) (c : String) : Rat :=
  ((groupRows df "code_reg" v).map (fun r => cellNumD (getCol df.cols c r))).sum

/-- The (first) row of `df` whose leading (index) cell holds `v`. -/
def rowForKey (df : DF) (v : Val) : Row :=
  (df.rows.find? (fun r => r.getD 0 none == some v)).getD []

/-! ## Heap model

Python passes DataFrames by reference and `df[c] = ...` mutates the
frame in place, so "no pipeline stage mutates its input tables" is a
statement about a heap: each stage is re-expressed as a function on an
explicit heap of frames, taking locations for its DataFrame arguments.
`.copy()` and every frame-producing expression allocate a fresh cell;
column assignment overwrites the cell the local variable points to —
exactly the source's statements, in order. -/

/-- A heap of allocated DataFrames; locations are list indices. -/
abbrev Heap := List DF

/-- Dereference a location (unallocated locations read as an empty frame). -/
def heapGet (h : Heap) (l : Nat) : DF :=
  h.getD l ⟨[], []⟩

/-- `merge_regions_and_departments` on the heap: the two local renames
rebind local names to fresh frames (`DataFrame.rename` copies), the merge
and the column selection allocate fresh frames; nothing is written in
place. Returns the heap and the location of the result. -/
def merge_regions_and_departments_state (h : Heap) (regLoc depLoc : Nat) : Heap × Nat :=
  let h1 := h ++ [(heapGet h regLoc).rename [("code", "code_reg"), ("name", "name_reg")]]
  let rg := h.length
  let h2 := h1 ++ [(heapGet h1 depLoc).rename
    [("code", "code_dep"), ("name", "name_dep"), ("region_code", "code_reg")]]
  let dp := h1.length
  let h3 := h2 ++ [mergeOn (heapGet h2 dp) ((heapGet h2 rg).select ["code_reg", "name_reg"]) "code_reg"]
  let mg := h2.length
  let h4 := h3 ++ [(heapGet h3 mg).select ["code_reg", "name_reg", "code_dep", "name_dep"]]
  (h4, h3.length)

/-- `merge_referendum_and_areas` on the heap: both `.copy()` calls
allocate, the three column assignments write in place to the frames the
local variables point to (the fresh copies), the filter, merge, drop and
rename allocate fresh frames. -/
def merge_referendum_and_areas_state (h : Heap) (refLoc radLoc : Nat) : Heap × Nat :=
  let h1 := h ++ [heapGet h refLoc]
  let r := h.length
  let h2 := h1.set r ((heapGet h1 r).setCol "code_dep"
    (fun row => astypeStrZfill2 (getCol (heapGet h1 r).cols "Department code" row)))
  let h3 := h2.set r ((heapGet h2 r).setCol "name_dep"
    (fun row => getCol (heapGet h2 r).cols "Department name" row))
  let h4 := h3 ++ [heapGet h3 radLoc]
  let a := h3.length
  let h5 := h4.set a ((heapGet h4 a).setCol "code_dep"
    (fun row => astypeStrZfill2 (getCol (heapGet h4 a).cols "code_dep" row)))
  let h6 := h5 ++ [DF.mk (heapGet h5 r).cols ((heapGet h5 r).rows.filter
    (fun row => !(containsZ (cellStrD (getCol (heapGet h5 r).cols "code_dep" row)))))]
  let r2 := h5.length
  let h7 := h6 ++ [mergeOn (heapGet h6 r2) (heapGet h6 a) "code_dep"]
  let m := h6.length
  let h8 := h7 ++ [(heapGet h7 m).dropCol "name_dep_y"]
  let m2 := h7.length
  let h9 := h8 ++ [(heapGet h8 m2).rename [("name_dep_x", "name_dep")]]
  (h9, h8.length)

/-- `compute_referendum_result_by_regions` on the heap: a single
group-by expression allocating a fresh frame. -/
def compute_referendum_result_by_regions_state (h : Heap) (loc : Nat) : Heap × Nat :=
  let h1 := h ++ [compute_referendum_result_by_regions (heapGet h loc)]
  (h1, h.length)

/-- `plot_referendum_map` on the heap: the geometry frame is read from
disk (a fresh allocation of the parameter `geo`), the merge allocates,
and the ratio assignment writes in place to the fresh merged frame. -/
def plot_referendum_map_state (h : Heap) (geo : DF) (resLoc : Nat) : Heap × Nat :=
  let h1 := h ++ [geo]
  let g := h.length
  let h2 := h1 ++ [mergeLeftRightOn (heapGet h1 g) (heapGet h1 resLoc) "code" "code_reg"]
  let m := h1.length
  let h3 := h2.set m ((heapGet h2 m).setCol "ratio" (fun row =>
    cellDiv (getCol (heapGet h2 m).cols "Choice A" row)
      (cellAdd (getCol (heapGet h2 m).cols "Choice A" row)
        (getCol (heapGet h2 m).cols "Choice B" row))))
  (h3, m)

/-! ## Concrete tables for the end-to-end scenario and for witnesses -/

/-- Referendum table with one metropolitan department row (code `"01"`,
Choice A = 600, Choice B = 400) and one overseas department row
(code `"971"`). -/
def refC1 : DF :=
  ⟨refCols,
   [[some (.str "01"), some (.str "Ain"), some (.num 1000), some (.num 0),
     some (.num 0), some (.num 600), some (.num 400)],
    [some (.str "971"), some (.str "Guadeloupe"), some (.num 500), some (.num 0),
     some (.num 0), some (.num 300), some (.num 200)]]⟩

/-- Area table: department `"01"` belongs to region `"84"`. -/
def areasC1 : DF :=
  ⟨radCols,
   [[some (.str "84"), some (.str "Auvergne-Rhone-Alpes"), some (.str "01"), some (.str "Ain")]]⟩

/-- Referendum table whose department code is the unpadded string `"1"`. -/
def refW : DF :=
  ⟨refCols,
   [[some (.str "1"), some (.str "Ain"), some (.num 100), some (.num 0),
     some (.num 0), some (.num 60), some (.num 40)]]⟩

/-- Regions table for witnesses. -/
def regsW : DF := ⟨regCols, [[some (.str "84"), some (.str "Auvergne-Rhone-Alpes")]]⟩

/-- Departments table for witnesses: department `"99"` names region
`"77"`, which no region row carries. -/
def depsW : DF :=
  ⟨depCols,
   [[some (.str "01"), some (.str "Ain"), some (.str "84")],
    [some (.str "99"), some (.str "Nowhere"), some (.str "77")]]⟩

/-- Geometry table for witnesses: regions `"84"` and `"11"`. -/
def geoW : DF :=
  ⟨geoCols,
   [[some (.str "84"), some (.str "ARA"), some (.str "poly84")],
    [some (.str "11"), some (.str "IDF"), some (.str "poly11")]]⟩

/-- Regional results table for witnesses: one region (`"84"`), 600 to
400, and one region (`"00"`) where both choices are zero. -/
def resW : DF :=
  ⟨resCols,
   [[some (.str "84"), some (.str "ARA"), some (.num 1000), some (.num 0),
     some (.num 0), some (.num 600), some (.num 400)],
    [some (.str "00"), some (.str "Empty"), some (.num 10), some (.num 10),
     some (.num 0), some (.num 0), some (.num 0)]]⟩

/-- A two-frame heap for the witness of the no-mutation theorem. -/
def heapW : Heap := [refC1, areasC1]

/-! ## List helper lemmas -/

theorem getD_append_lt {α : Type} (r s : List α) (d : α) (i : Nat) (h : i < r.length) :
    (r ++ s).getD i d = r.getD i d := by
  simp [List.getD_eq_getElem?_getD, List.getElem?_append_left h]

theorem getD_append_ge {α : Type} (r s : List α) (d : α) (i : Nat) (h : r.length ≤ i) :
    (r ++ s).getD i d = s.getD (i - r.length) d := by
  simp [List.getD_eq_getElem?_getD, List.getElem?_append_right h]

theorem getD_set_self {α : Type} (r : List α) (i : Nat) (v : α) (d : α) (h : i < r.length) :
    (r.set i v).getD i d = v := by
  simp [List.getD_eq_getElem?_getD, List.getElem?_set_self h]

theorem getD_set_ne {α : Type} (r : List α) (i j : Nat) (v : α) (d : α) (h : i ≠ j) :
    (r.set i v).getD j d = r.getD j d := by
  simp [List.getD_eq_getElem?_getD, List.getElem?_set_ne h]

theorem exists_eta2 (r : Row) (h : r.length = 2) :
    ∃ a0 a1 : Cell, r = [a0, a1] :=
  match r, h with
  | [b0, b1], _ => ⟨b0, b1, rfl⟩

theorem exists_eta3 (r : Row) (h : r.length = 3) :
    ∃ a0 a1 a2 : Cell, r = [a0, a1, a2] :=
  match r, h with
  | [b0, b1, b2], _ => ⟨b0, b1, b2, rfl⟩

theorem exists_eta4 (r : Row) (h : r.length = 4) :
    ∃ a0 a1 a2 a3 : Cell, r = [a0, a1, a2, a3] :=
  match r, h with
  | [b0, b1, b2, b3], _ => ⟨b0, b1, b2, b3, rfl⟩

theorem exists_eta7 (r : Row) (h : r.length = 7) :
    ∃ a0 a1 a2 a3 a4 a5 a6 : Cell, r = [a0, a1, a2, a3, a4, a5, a6] :=
  match r, h with
  | [b0, b1, b2, b3, b4, b5, b6], _ => ⟨b0, b1, b2, b3, b4, b5, b6, rfl⟩

theorem flatMap_congr_mem {α β : Type} {l : List α} {F G : α → List β}
    (h : ∀ x ∈ l, F x = G x) : l.flatMap F = l.flatMap G := by
  induction l with
  | nil => rfl
  | cons a t ih =>
    simp only [List.flatMap_cons, h a (List.mem_cons_self a t)]
    rw [ih (fun x hx => h x (List.mem_cons_of_mem a hx))]

theorem flatMap_eq_map_of_forall {α β : Type} {l : List α} {F : α → List β} {G : α → β}
    (h : ∀ x ∈ l, F x = [G x]) : l.flatMap F = l.map G := by
  induction l with
  | nil => rfl
  | cons a t ih =>
    simp only [List.flatMap_cons, List.map_cons, h a (List.mem_cons_self a t)]
    rw [ih (fun x hx => h x (List.mem_cons_of_mem a hx))]
    rfl

theorem length_flatMap_of_one {α β : Type} {l : List α} {F : α → List β}
    (h : ∀ x ∈ l, (F x).length = 1) : (l.flatMap F).length = l.length := by
  induction l with
  | nil => rfl
  | cons a t ih =>
    simp only [List.flatMap_cons, List.length_append, h a (List.mem_cons_self a t),
      List.length_cons]
    rw [ih (fun x hx => h x (List.mem_cons_of_mem a hx))]
    omega

theorem find?_eq_head?_filter {α : Type} (p : α → Bool) (l : List α) :
    l.find? p = (l.filter p).head? := by
  induction l with
  | nil => rfl
  | cons a t ih =>
    by_cases h : p a
    · rw [List.find?_cons_of_pos t h, List.filter_cons_of_pos h]
      rfl
    · rw [List.find?_cons_of_neg t h, List.filter_cons_of_neg h]
      exact ih

theorem isEmpty_map {α β : Type} (f : α → β) (l : List α) :
    (l.map f).isEmpty = l.isEmpty := by
  cases l <;> rfl

/-- `cellKeyEq` decides plain cell equality (NaN keys match each other,
as in pandas merge). -/
theorem cellKeyEq_iff (a b : Cell) : cellKeyEq a b = true ↔ a = b := by
  cases a <;> cases b <;> simp [cellKeyEq]

/-- In a list whose key cells are pairwise distinct (the null key, if
present, occurring at most once like any other value), at most one
element matches any given join key. -/
theorem length_filter_keyEq_le_one {β : Type} (f : β → Cell) (l : List β)
    (hnd : (l.map f).Nodup) (c : Cell) :
    (l.filter (fun x => cellKeyEq c (f x))).length ≤ 1 := by
  induction l with
  | nil => simp
  | cons a t ih =>
    rw [List.map_cons, List.nodup_cons] at hnd
    by_cases hk : cellKeyEq c (f a) = true
    · have hca : c = f a := (cellKeyEq_iff c (f a)).mp hk
      rw [List.filter_cons_of_pos (p := fun x => cellKeyEq c (f x)) hk]
      have h0 : t.filter (fun x => cellKeyEq c (f x)) = [] := by
        simp only [List.filter_eq_nil_iff]
        intro b hb hkb
        have hcb : c = f b := (cellKeyEq_iff c (f b)).mp hkb
        exact hnd.1 (List.mem_map.mpr ⟨b, hb, hcb.symm.trans hca⟩)
      simp [h0]
    · rw [List.filter_cons_of_neg (p := fun x => cellKeyEq c (f x)) hk]
      exact ih hnd.2

theorem insertSorted_perm (a : Val) (l : List Val) :
    (insertSorted a l).Perm (a :: l) := by
  induction l with
  | nil => exact List.Perm.refl _
  | cons b t ih =>
    unfold insertSorted
    by_cases h : valLe a b
    · simp only [h, if_true]
      exact List.Perm.refl _
    · simp only [h, if_false]
      exact (ih.cons b).trans (List.Perm.swap a b t)

theorem sortVals_perm (l : List Val) : (sortVals l).Perm l := by
  induction l with
  | nil => exact List.Perm.refl _
  | cons a t ih =>
    have : sortVals (a :: t) = insertSorted a (sortVals t) := rfl
    rw [this]
    exact (insertSorted_perm a (sortVals t)).trans (ih.cons a)

theorem foldl_add_cellNumD (cells : List Cell) :
    cells.foldl (fun acc c => acc + cellNumD c) 0 = (cells.map cellNumD).sum := by
  rw [List.sum_eq_foldl, ← List.foldl_map]

/-! ## Characterization of `merge_referendum_and_areas` on the input schemas -/

theorem getCol_refRowNorm_code (r : Row) (h7 : r.length = 7) :
    getCol (refCols ++ ["code_dep", "name_dep"]) "code_dep" (refRowNorm r) =
      astypeStrZfill2 (r.getD 0 none) := by
  show (refRowNorm r).getD 7 none = _
  unfold refRowNorm
  rw [getD_append_ge r _ none 7 (by omega), h7]
  rfl

theorem getCol_radRowNorm_code (a : Row) (h4 : a.length = 4) :
    getCol radCols "code_dep" (radRowNorm a) = astypeStrZfill2 (a.getD 2 none) := by
  show (radRowNorm a).getD 2 none = _
  exact getD_set_self a 2 _ none (by omega)

theorem refNormalized_fixed (R : List Row) (hR : ∀ r ∈ R, r.length = 7) :
    refNormalized ⟨refCols, R⟩ = ⟨refCols ++ ["code_dep", "name_dep"], R.map refRowNorm⟩ := by
  have h1 : refNormalized ⟨refCols, R⟩ =
      ⟨refCols ++ ["code_dep", "name_dep"],
       (R.map (fun r => r ++ [astypeStrZfill2 (r.getD 0 none)])).map
         (fun r => r ++ [r.getD 1 none])⟩ := rfl
  rw [h1, List.map_map]
  refine congrArg (DF.mk (refCols ++ ["code_dep", "name_dep"])) ?_
  apply List.map_congr_left
  intro r hr
  have h7 : r.length = 7 := hR r hr
  show (r ++ [astypeStrZfill2 (r.getD 0 none)]) ++
      [(r ++ [astypeStrZfill2 (r.getD 0 none)]).getD 1 none] = refRowNorm r
  rw [getD_append_lt r _ none 1 (by omega), List.append_assoc]
  rfl

theorem radNormalized_fixed (A : List Row) :
    radNormalized ⟨radCols, A⟩ = ⟨radCols, A.map radRowNorm⟩ := rfl

theorem refFiltered_fixed (R : List Row) (hR : ∀ r ∈ R, r.length = 7) :
    refFiltered ⟨refCols, R⟩ =
      ⟨refCols ++ ["code_dep", "name_dep"],
       (R.filter (fun r => !(hasZ r))).map refRowNorm⟩ := by
  show DF.mk (refNormalized ⟨refCols, R⟩).cols
      ((refNormalized ⟨refCols, R⟩).rows.filter
        (fun r => !(containsZ (cellStrD
          (getCol (refNormalized ⟨refCols, R⟩).cols "code_dep" r))))) = _
  rw [refNormalized_fixed R hR]
  refine congrArg (DF.mk (refCols ++ ["code_dep", "name_dep"])) ?_
  rw [List.filter_map]
  congr 1
  apply List.filter_congr
  intro r hr
  have h7 : r.length = 7 := hR r hr
  show (!(containsZ (cellStrD
      (getCol (refCols ++ ["code_dep", "name_dep"]) "code_dep" (refRowNorm r))))) = !(hasZ r)
  rw [getCol_refRowNorm_code r h7]
  rfl

theorem mergeOn_step_fixed (R A : List Row) (hR : ∀ r ∈ R, r.length = 7)
    (hA : ∀ a ∈ A, a.length = 4) :
    mergeOn (refFiltered ⟨refCols, R⟩) (radNormalized ⟨radCols, A⟩) "code_dep" =
      ⟨refCols ++ ["code_dep", "name_dep_x", "code_reg", "name_reg", "name_dep_y"],
       (R.filter (fun r => !(hasZ r))).flatMap (fun r =>
         if (areaMatches A r).isEmpty then [refRowNorm r ++ [none, none, none]]
         else (areaMatches A r).map
           (fun a => refRowNorm r ++ [a.getD 0 none, a.getD 1 none, a.getD 3 none]))⟩ := by
  rw [refFiltered_fixed R hR, radNormalized_fixed A]
  simp only [mergeOn]
  congr 1
  rw [List.flatMap_map]
  apply flatMap_congr_mem
  intro r hr
  have h7 : r.length = 7 := hR r (List.mem_filter.mp hr).1
  have hms : (A.map radRowNorm).filter
      (fun rr => cellKeyEq (getCol (refCols ++ ["code_dep", "name_dep"]) "code_dep"
        (refRowNorm r)) (getCol radCols "code_dep" rr)) =
      (areaMatches A r).map radRowNorm := by
    rw [List.filter_map]
    congr 1
    apply List.filter_congr
    intro a ha
    have h4 : a.length = 4 := hA a ha
    show cellKeyEq (getCol (refCols ++ ["code_dep", "name_dep"]) "code_dep" (refRowNorm r))
        (getCol radCols "code_dep" (radRowNorm a)) = _
    rw [getCol_refRowNorm_code r h7, getCol_radRowNorm_code a h4]
  simp only [hms, List.map_map, isEmpty_map]
  by_cases he : (areaMatches A r).isEmpty
  · simp only [he, if_true]
    rfl
  · simp only [he, if_false]
    apply List.map_congr_left
    intro a ha
    have h4 : a.length = 4 := hA a (List.mem_filter.mp ha).1
    show refRowNorm r ++ [(radRowNorm a).getD 0 none, (radRowNorm a).getD 1 none,
        (radRowNorm a).getD 3 none] = _
    unfold radRowNorm
    rw [getD_set_ne a 2 0 _ none (by omega), getD_set_ne a 2 1 _ none (by omega),
      getD_set_ne a 2 3 _ none (by omega)]

/-- `merge_referendum_and_areas` on the input schemas: one output block
per kept (non-overseas) referendum row — its matching area rows, or a
single null-region row when none matches. -/
theorem merge_referendum_and_areas_fixed (R A : List Row) (hR : ∀ r ∈ R, r.length = 7)
    (hA : ∀ a ∈ A, a.length = 4) :
    merge_referendum_and_areas ⟨refCols, R⟩ ⟨radCols, A⟩ =
      ⟨mergedCols,
       (R.filter (fun r => !(hasZ r))).flatMap (fun r =>
         if (areaMatches A r).isEmpty then [outRowU r]
         else (areaMatches A r).map (fun a => outRowM r a))⟩ := by
  show ((mergeOn (refFiltered ⟨refCols, R⟩) (radNormalized ⟨radCols, A⟩)
      "code_dep").dropCol "name_dep_y").rename [("name_dep_x", "name_dep")] = _
  rw [mergeOn_step_fixed R A hR hA]
  unfold DF.rename DF.dropCol DF.select
  congr 1
  rw [List.map_flatMap]
  apply flatMap_congr_mem
  intro r hr
  obtain ⟨a0, a1, a2, a3, a4, a5, a6, rfl⟩ :=
    exists_eta7 r (hR r (List.mem_filter.mp hr).1)
  by_cases he : (areaMatches A [a0, a1, a2, a3, a4, a5, a6]).isEmpty = true
  · simp only [if_pos he, List.map_cons, List.map_nil]
    rfl
  · simp only [if_neg he, List.map_map]
    apply List.map_congr_left
    intro a ha
    have haA : a ∈ A := (List.mem_filter.mp (show a ∈ A.filter _ from ha)).1
    obtain ⟨b0, b1, b2, b3, rfl⟩ := exists_eta4 a (hA a haA)
    rfl

/-! ## Characterization of `merge_regions_and_departments` on the input schemas -/

theorem mergeOn_regions_step (G D : List Row) :
    mergeOn ⟨["code_dep", "name_dep", "code_reg"], D⟩
      ⟨["code_reg", "name_reg"], G.map (fun g => [g.getD 0 none, g.getD 1 none])⟩
      "code_reg" =
      ⟨["code_dep", "name_dep", "code_reg", "name_reg"],
       D.flatMap (fun d =>
         if (G.filter (fun g => cellKeyEq (d.getD 2 none) (g.getD 0 none))).isEmpty
         then [d ++ [none]]
         else (G.filter (fun g => cellKeyEq (d.getD 2 none) (g.getD 0 none))).map
           (fun g => d ++ [g.getD 1 none]))⟩ := by
  simp only [mergeOn]
  congr 1
  apply flatMap_congr_mem
  intro d hd
  show (if (((G.map (fun g => [g.getD 0 none, g.getD 1 none])).filter
        (fun rr => cellKeyEq (d.getD 2 none) (rr.getD 0 none))).map
        (fun rr => d ++ [rr.getD 1 none])).isEmpty
      then [d ++ [(none : Cell)]]
      else ((G.map (fun g => [g.getD 0 none, g.getD 1 none])).filter
        (fun rr => cellKeyEq (d.getD 2 none) (rr.getD 0 none))).map
        (fun rr => d ++ [rr.getD 1 none])) = _
  rw [List.filter_map, List.map_map, isEmpty_map]
  rfl

/-- `merge_regions_and_departments` on the input schemas: one output
block per department row — one row per matching region row, or a single
row with null region name when none matches; the `code_reg` column is
the department's own `region_code` in every case (it is the join key of
the left table). -/
theorem merge_regions_and_departments_fixed (G D : List Row) (hD : ∀ d ∈ D, d.length = 3) :
    merge_regions_and_departments ⟨regCols, G⟩ ⟨depCols, D⟩ =
      ⟨radCols,
       D.flatMap (fun d =>
         if (G.filter (fun g => cellKeyEq (d.getD 2 none) (g.getD 0 none))).isEmpty
         then [[d.getD 2 none, none, d.getD 0 none, d.getD 1 none]]
         else (G.filter (fun g => cellKeyEq (d.getD 2 none) (g.getD 0 none))).map
           (fun g => [d.getD 2 none, g.getD 1 none, d.getD 0 none, d.getD 1 none]))⟩ := by
  show (mergeOn ⟨["code_dep", "name_dep", "code_reg"], D⟩
      ⟨["code_reg", "name_reg"], G.map (fun g => [g.getD 0 none, g.getD 1 none])⟩
      "code_reg").select ["code_reg", "name_reg", "code_dep", "name_dep"] = _
  rw [mergeOn_regions_step G D]
  unfold DF.select
  congr 1
  rw [List.map_flatMap]
  apply flatMap_congr_mem
  intro d hd
  obtain ⟨d0, d1, d2, rfl⟩ := exists_eta3 d (hD d hd)
  by_cases he : (G.filter (fun g => cellKeyEq ([d0, d1, d2].getD 2 none) (g.getD 0 none))).isEmpty = true
  · simp only [if_pos he, List.map_cons, List.map_nil]
    rfl
  · simp only [if_neg he, List.map_map]
    apply List.map_congr_left
    intro g hg
    rfl

/-! ## Characterization of `plot_referendum_map` on the input schemas -/

theorem mergeLRO_step (G R : List Row) (hR7 : ∀ r ∈ R, r.length = 7) :
    mergeLeftRightOn ⟨geoCols, G⟩ ⟨resCols, R⟩ "code" "code_reg" =
      ⟨geoCols ++ resCols,
       G.flatMap (fun g =>
         if (resMatches R g).isEmpty then [g ++ [none, none, none, none, none, none, none]]
         else (resMatches R g).map (fun r => g ++ r))⟩ := by
  simp only [mergeLeftRightOn]
  congr 1
  apply flatMap_congr_mem
  intro g hg
  show (if ((resMatches R g).map
        (fun rr => g ++ resCols.map (fun c => getCol resCols c rr))).isEmpty
      then [g ++ resCols.map (fun _ => (none : Cell))]
      else (resMatches R g).map
        (fun rr => g ++ resCols.map (fun c => getCol resCols c rr))) = _
  rw [isEmpty_map]
  by_cases he : (resMatches R g).isEmpty = true
  · simp only [if_pos he]
    rfl
  · simp only [if_neg he]
    apply List.map_congr_left
    intro r hr
    have hrR : r ∈ R := (List.mem_filter.mp (show r ∈ R.filter _ from hr)).1
    obtain ⟨r0, r1, r2, r3, r4, r5, r6, rfl⟩ := exists_eta7 r (hR7 r hrR)
    rfl

/-- `plot_referendum_map` on the input schemas: one block per geometry
row — the matching result rows each extended with the ratio cell, or a
single all-null row (null ratio) when no result matches. -/
theorem plot_referendum_map_fixed (G R : List Row) (hG : ∀ g ∈ G, g.length = 3)
    (hR7 : ∀ r ∈ R, r.length = 7) :
    plot_referendum_map ⟨geoCols, G⟩ ⟨resCols, R⟩ =
      ⟨mapCols,
       G.flatMap (fun g =>
         if (resMatches R g).isEmpty then [mapRowU g]
         else (resMatches R g).map (fun r => mapRowM g r))⟩ := by
  show (mergeLeftRightOn ⟨geoCols, G⟩ ⟨resCols, R⟩ "code" "code_reg").setCol "ratio"
      (fun r => cellDiv
        (getCol (mergeLeftRightOn ⟨geoCols, G⟩ ⟨resCols, R⟩ "code" "code_reg").cols
          "Choice A" r)
        (cellAdd
          (getCol (mergeLeftRightOn ⟨geoCols, G⟩ ⟨resCols, R⟩ "code" "code_reg").cols
            "Choice A" r)
          (getCol (mergeLeftRightOn ⟨geoCols, G⟩ ⟨resCols, R⟩ "code" "code_reg").cols
            "Choice B" r))) = _
  rw [mergeLRO_step G R hR7]
  unfold DF.setCol
  congr 1
  rw [List.map_flatMap]
  apply flatMap_congr_mem
  intro g hg
  obtain ⟨g0, g1, g2, rfl⟩ := exists_eta3 g (hG g hg)
  by_cases he : (resMatches R [g0, g1, g2]).isEmpty = true
  · simp only [if_pos he, List.map_cons, List.map_nil]
    rfl
  · simp only [if_neg he, List.map_map]
    apply List.map_congr_left
    intro r hr
    have hrR : r ∈ R := (List.mem_filter.mp (show r ∈ R.filter _ from hr)).1
    obtain ⟨r0, r1, r2, r3, r4, r5, r6, rfl⟩ := exists_eta7 r (hR7 r hrR)
    rfl

/-! ## Facts about the group-by aggregation -/

theorem groupKeys_nodup (df : DF) (k : String) : (groupKeys df k).Nodup :=
  (sortVals_perm _).nodup_iff.mpr (List.nodup_dedup _)

theorem applyAgg_sum_eq (df : DF) (v : Val) (c : String) :
    applyAgg AggFun.sum ((groupRows df "code_reg" v).map (fun r => getCol df.cols c r)) =
      some (.num (regionSum df v c)) := by
  show some (Val.num (((groupRows df "code_reg" v).map (fun r => getCol df.cols c r)).foldl
      (fun acc x => acc + cellNumD x) 0)) = some (Val.num (regionSum df v c))
  rw [foldl_add_cellNumD, List.map_map]
  rfl

theorem compute_rows_eq (df : DF) :
    (compute_referendum_result_by_regions df).rows =
      (groupKeys df "code_reg").map (fun v =>
        [some v,
         ((groupRows df "code_reg" v).map (fun r => getCol df.cols "name_reg" r)).findSome? id,
         some (.num (regionSum df v "Registered")),
         some (.num (regionSum df v "Abstentions")),
         some (.num (regionSum df v "Null")),
         some (.num (regionSum df v "Choice A")),
         some (.num (regionSum df v "Choice B"))]) := by
  show (groupKeys df "code_reg").map (fun v =>
      some v ::
        [applyAgg AggFun.first
          ((groupRows df "code_reg" v).map (fun r => getCol df.cols "name_reg" r)),
         applyAgg AggFun.sum
          ((groupRows df "code_reg" v).map (fun r => getCol df.cols "Registered" r)),
         applyAgg AggFun.sum
          ((groupRows df "code_reg" v).map (fun r => getCol df.cols "Abstentions" r)),
         applyAgg AggFun.sum
          ((groupRows df "code_reg" v).map (fun r => getCol df.cols "Null" r)),
         applyAgg AggFun.sum
          ((groupRows df "code_reg" v).map (fun r => getCol df.cols "Choice A" r)),
         applyAgg AggFun.sum
          ((groupRows df "code_reg" v).map (fun r => getCol df.cols "Choice B" r))]) = _
  apply List.map_congr_left
  intro v _
  simp only [applyAgg_sum_eq]
  rfl

theorem compute_rows_keys (df : DF) :
    (compute_referendum_result_by_regions df).rows.map (fun r => r.getD 0 none) =
      (groupKeys df "code_reg").map some := by
  rw [compute_rows_eq df, List.map_map]
  apply List.map_congr_left
  intro v _
  rfl

theorem find?_map_key (l : List Val) (F : Val → List Cell) (v : Val) (hv : v ∈ l) :
    (l.map (fun w => some w :: F w)).find? (fun r => r.getD 0 none == some v) =
      some (some v :: F v) := by
  induction l with
  | nil => cases hv
  | cons a t ih =>
    by_cases ha : a = v
    · subst ha
      rw [List.map_cons, List.find?_cons_of_pos _ (by simp)]
    · have hvt : v ∈ t := by
        cases List.mem_cons.mp hv with
        | inl h1 => exact absurd h1.symm ha
        | inr h2 => exact h2
      rw [List.map_cons, List.find?_cons_of_neg _ (by simp [ha])]
      exact ih hvt

theorem filterMap_getCol_filter (cols : List String) (k : String) (rows : List Row) :
    (rows.filter (fun r => (getCol cols k r).isSome)).filterMap (fun r => getCol cols k r) =
      rows.filterMap (fun r => getCol cols k r) := by
  induction rows with
  | nil => rfl
  | cons r t ih =>
    cases h : getCol cols k r with
    | none =>
      rw [List.filter_cons_of_neg (by simp [h]), List.filterMap_cons_none h]
      exact ih
    | some v =>
      rw [List.filter_cons_of_pos (by simp [h]), List.filterMap_cons_some h,
        List.filterMap_cons_some h, ih]

theorem groupRows_filter_isSome (df : DF) (k : String) (v : Val) :
    groupRows ⟨df.cols, df.rows.filter (fun r => (getCol df.cols k r).isSome)⟩ k v =
      groupRows df k v := by
  show (df.rows.filter (fun r => (getCol df.cols k r).isSome)).filter
      (fun r => getCol df.cols k r == some v) = _
  rw [List.filter_filter]
  apply List.filter_congr
  intro r _
  cases h : getCol df.cols k r <;> simp [h]

theorem groupKeys_filter_isSome (df : DF) (k : String) :
    groupKeys ⟨df.cols, df.rows.filter (fun r => (getCol df.cols k r).isSome)⟩ k =
      groupKeys df k := by
  show sortVals (((df.rows.filter (fun r => (getCol df.cols k r).isSome)).filterMap
      (fun r => getCol df.cols k r)).dedup) = groupKeys df k
  rw [filterMap_getCol_filter]
  rfl

theorem length_filter_not {α : Type} (p : α → Bool) (l : List α) :
    (l.filter (fun x => !(p x))).length = l.length - (l.filter p).length := by
  induction l with
  | nil => rfl
  | cons a t ih =>
    by_cases h : p a = true
    · rw [List.filter_cons_of_pos h, List.filter_cons_of_neg (by simp [h])]
      have hle := List.length_filter_le p t
      simp only [List.length_cons]
      omega
    · rw [List.filter_cons_of_neg h, List.filter_cons_of_pos (by simp [h])]
      have hle := List.length_filter_le p t
      simp only [List.length_cons]
      omega

theorem getCol_code_dep_append (r : Row) (h7 : r.length = 7) (rest : List Cell) :
    getCol mergedCols "code_dep" (r ++ astypeStrZfill2 (r.getD 0 none) :: rest) =
      astypeStrZfill2 (r.getD 0 none) := by
  show (r ++ astypeStrZfill2 (r.getD 0 none) :: rest).getD 7 none = _
  rw [getD_append_ge r _ none 7 (by omega), h7]
  rfl

theorem zfill2_length (s : String) : 2 ≤ (zfill2 s).length := by
  unfold zfill2
  cases h : s.toList with
  | nil =>
    show 2 ≤ ("00" : String).length
    decide
  | cons c t =>
    cases t with
    | nil =>
      show 2 ≤ (if c = '-' ∨ c = '+' then String.mk [c, '0'] else String.mk ['0', c]).length
      by_cases hc : c = '-' ∨ c = '+'
      · rw [if_pos hc]
        exact Nat.le_refl 2
      · rw [if_neg hc]
        exact Nat.le_refl 2
    | cons d u =>
      show 2 ≤ s.length
      have hsl : s.length = s.toList.length := rfl
      rw [hsl, h]
      simp only [List.length_cons]
      omega

/-! ## Claims -/

/-- C1 counterexample: in the end-to-end scenario (metropolitan
department `"01"` of region `"84"` with 600/400, overseas department
`"971"`), the row derived from `"971"` is NOT removed by the filter of
`merge_referendum_and_areas` — its code contains no `Z`, so it survives
the filter (both referendum rows do) and still appears in the merged
table. This refutes the claim that no `"971"`-derived row survives the
filter. -/
theorem C1_counterexample :
    (refFiltered refC1).rows.length = 2 ∧
    ((merge_referendum_and_areas refC1 areasC1).rows.filter
      (fun r => getCol (merge_referendum_and_areas refC1 areasC1).cols "code_dep" r
        == some (Val.str "971"))).length = 1 := by
  decide

unseal Rat.add in
/-- C1 amended: in that scenario the final per-region table contains
exactly the region `"84"` row with Choice A = 600 and Choice B = 400;
the `"971"` row survives the `Z` filter, carries a null region code
after the left join (no area row matches it), and is therefore dropped
by the group-by aggregation — so no `"971"`-derived row reaches the
final table, but through the aggregation, not through the filter. -/
theorem C1_end_to_end :
    (compute_referendum_result_by_regions (merge_referendum_and_areas refC1 areasC1)).cols
      = resCols ∧
    (compute_referendum_result_by_regions (merge_referendum_and_areas refC1 areasC1)).rows
      = [[some (Val.str "84"), some (Val.str "Auvergne-Rhone-Alpes"),
          some (Val.num 1000), some (Val.num 0), some (Val.num 0),
          some (Val.num 600), some (Val.num 400)]] ∧
    ((merge_referendum_and_areas refC1 areasC1).rows.filter
      (fun r => getCol (merge_referendum_and_areas refC1 areasC1).cols "code_dep" r
        == some (Val.str "971"))).map
      (fun r => getCol (merge_referendum_and_areas refC1 areasC1).cols "code_reg" r)
      = [none] := by
  decide

/-- C10: a merged row whose region code is null is silently excluded
from the aggregation — `compute_referendum_result_by_regions` returns
the same table on the input as on the input restricted to rows with a
non-null `code_reg` (the group-by drops null keys), so null-region rows
contribute to no regional total and produce no output row. -/
theorem C10_null_region_rows_excluded (df : DF) :
    compute_referendum_result_by_regions df =
      compute_referendum_result_by_regions
        ⟨df.cols, df.rows.filter (fun r => (getCol df.cols "code_reg" r).isSome)⟩ := by
  unfold compute_referendum_result_by_regions
  unfold groupbyAgg
  congr 1
  rw [groupKeys_filter_isSome df "code_reg"]
  apply List.map_congr_left
  intro v _
  simp only [groupRows_filter_isSome]

/-- C2: `merge_referendum_and_areas` removes exactly the referendum rows
whose normalized department code contains the overseas marker `Z`: every
output row's code is `Z`-free, and — when each referendum row matches at
most one area row — the output row count is the input row count minus
the number of rows whose normalized code contains `Z`. -/
theorem C2_overseas_filter (R A : List Row) (hR : ∀ r ∈ R, r.length = 7)
    (hA : ∀ a ∈ A, a.length = 4)
    (hone : ∀ r ∈ R, (areaMatches A r).length ≤ 1) :
    (∀ row ∈ (merge_referendum_and_areas ⟨refCols, R⟩ ⟨radCols, A⟩).rows,
      containsZ (cellStrD (getCol mergedCols "code_dep" row)) = false) ∧
    (merge_referendum_and_areas ⟨refCols, R⟩ ⟨radCols, A⟩).rows.length =
      R.length - (R.filter (fun r => hasZ r)).length := by
  rw [merge_referendum_and_areas_fixed R A hR hA]
  constructor
  · intro row hrow
    obtain ⟨r, hrF, hin⟩ := List.mem_flatMap.mp hrow
    have hmem := List.mem_filter.mp hrF
    have h7 : r.length = 7 := hR r hmem.1
    have hz : hasZ r = false := by
      have h2 := hmem.2
      simp only [Bool.not_eq_true'] at h2
      exact h2
    by_cases he : (areaMatches A r).isEmpty = true
    · rw [if_pos he] at hin
      rw [List.mem_singleton.mp hin]
      rw [show outRowU r =
        r ++ astypeStrZfill2 (r.getD 0 none) :: [r.getD 1 none, none, none] from rfl]
      rw [getCol_code_dep_append r h7]
      exact hz
    · rw [if_neg he] at hin
      obtain ⟨a, _, rfl⟩ := List.mem_map.mp hin
      rw [show outRowM r a =
        r ++ astypeStrZfill2 (r.getD 0 none) ::
          [r.getD 1 none, a.getD 0 none, a.getD 1 none] from rfl]
      rw [getCol_code_dep_append r h7]
      exact hz
  · refine Eq.trans (length_flatMap_of_one ?_) (length_filter_not (fun r => hasZ r) R)
    intro r hrF
    have hmem := List.mem_filter.mp hrF
    by_cases he : (areaMatches A r).isEmpty = true
    · rw [if_pos he]
      rfl
    · rw [if_neg he, List.length_map]
      have h1 := hone r hmem.1
      have h2 : (areaMatches A r).length ≠ 0 := by
        intro h0
        exact he (List.isEmpty_iff_length_eq_zero.mpr h0)
      omega

/-- C2 witness: on the concrete end-to-end tables the output row count
equals the input count minus the overseas rows. -/
theorem C2_overseas_filter_witness :
    (merge_referendum_and_areas ⟨refCols, refC1.rows⟩ ⟨radCols, areasC1.rows⟩).rows.length =
      refC1.rows.length - (refC1.rows.filter (fun r => hasZ r)).length :=
  (C2_overseas_filter refC1.rows areasC1.rows (by decide) (by decide) (by decide)).2

/-- C6: before the join of `merge_referendum_and_areas`, the department
code of every referendum row and of every area row is replaced by
`zfill(2)` of its string form (a non-null string cell), `zfill2` always
returns a string of length at least two, and the join then compares
these strings exactly: a referendum row with raw code `"1"` joins the
area row with code `"01"` (concrete table `refW`), yielding its region
`"84"`. -/
theorem C6_code_normalization (R A : List Row) (hR : ∀ r ∈ R, r.length = 7)
    (hA : ∀ a ∈ A, a.length = 4) :
    ((refNormalized ⟨refCols, R⟩).rows.map
      (fun row => getCol (refNormalized ⟨refCols, R⟩).cols "code_dep" row) =
      R.map (fun r => some (Val.str (zfill2 (cellToStr (r.getD 0 none)))))) ∧
    ((radNormalized ⟨radCols, A⟩).rows.map
      (fun row => getCol (radNormalized ⟨radCols, A⟩).cols "code_dep" row) =
      A.map (fun a => some (Val.str (zfill2 (cellToStr (a.getD 2 none)))))) ∧
    (∀ s : String, 2 ≤ (zfill2 s).length) ∧
    ((merge_referendum_and_areas refW areasC1).rows.map
      (fun row => getCol (merge_referendum_and_areas refW areasC1).cols "code_reg" row) =
      [some (Val.str "84")]) := by
  refine ⟨?_, ?_, zfill2_length, by decide⟩
  · rw [refNormalized_fixed R hR, List.map_map]
    apply List.map_congr_left
    intro r hr
    exact getCol_refRowNorm_code r (hR r hr)
  · rw [radNormalized_fixed A, List.map_map]
    apply List.map_congr_left
    intro a ha
    exact getCol_radRowNorm_code a (hA a ha)

/-- C6 witness: the normalized referendum codes of the concrete table. -/
theorem C6_code_normalization_witness :
    (refNormalized ⟨refCols, refC1.rows⟩).rows.map
      (fun row => getCol (refNormalized ⟨refCols, refC1.rows⟩).cols "code_dep" row) =
      refC1.rows.map (fun r => some (Val.str (zfill2 (cellToStr (r.getD 0 none))))) :=
  (C6_code_normalization refC1.rows areasC1.rows (by decide) (by decide)).1

/-- C7: the output of `merge_referendum_and_areas` carries exactly one
department-name column `name_dep` (no `name_dep_x`/`name_dep_y`
leftovers), and in every output row its value equals the row's
referendum-side "Department name" cell. -/
theorem C7_single_name_dep (R A : List Row) (hR : ∀ r ∈ R, r.length = 7)
    (hA : ∀ a ∈ A, a.length = 4) :
    ((merge_referendum_and_areas ⟨refCols, R⟩ ⟨radCols, A⟩).cols.count "name_dep" = 1) ∧
    ("name_dep_y" ∉ (merge_referendum_and_areas ⟨refCols, R⟩ ⟨radCols, A⟩).cols) ∧
    ("name_dep_x" ∉ (merge_referendum_and_areas ⟨refCols, R⟩ ⟨radCols, A⟩).cols) ∧
    ∀ row ∈ (merge_referendum_and_areas ⟨refCols, R⟩ ⟨radCols, A⟩).rows,
      getCol mergedCols "name_dep" row = getCol mergedCols "Department name" row := by
  rw [merge_referendum_and_areas_fixed R A hR hA]
  refine ⟨(by decide : mergedCols.count "name_dep" = 1),
    (by decide : "name_dep_y" ∉ mergedCols),
    (by decide : "name_dep_x" ∉ mergedCols), ?_⟩
  intro row hrow
  obtain ⟨r, hrF, hin⟩ := List.mem_flatMap.mp hrow
  obtain ⟨a0, a1, a2, a3, a4, a5, a6, rfl⟩ :=
    exists_eta7 r (hR r (List.mem_filter.mp hrF).1)
  by_cases he : (areaMatches A [a0, a1, a2, a3, a4, a5, a6]).isEmpty = true
  · rw [if_pos he] at hin
    rw [List.mem_singleton.mp hin]
    rfl
  · rw [if_neg he] at hin
    obtain ⟨a, _, rfl⟩ := List.mem_map.mp hin
    rfl

/-- C7 witness: on the concrete end-to-end tables the merged frame has
exactly one `name_dep` column. -/
theorem C7_single_name_dep_witness :
    (merge_referendum_and_areas ⟨refCols, refC1.rows⟩ ⟨radCols, areasC1.rows⟩).cols.count
      "name_dep" = 1 :=
  (C7_single_name_dep refC1.rows areasC1.rows (by decide) (by decide)).1

/-- C5 counterexample: a department (`"99"`) whose region code (`"77"`)
matches no region does NOT get a null region code: the `code_reg` cell of
its output row is its own region code `"77"` (the join key comes from the
left, department, side); only the region name is null. -/
theorem C5_counterexample :
    (merge_regions_and_departments regsW depsW).rows =
      [[some (Val.str "84"), some (Val.str "Auvergne-Rhone-Alpes"), some (Val.str "01"),
        some (Val.str "Ain")],
       [some (Val.str "77"), none, some (Val.str "99"), some (Val.str "Nowhere")]] ∧
    getCol (merge_regions_and_departments regsW depsW).cols "code_reg"
      ((merge_regions_and_departments regsW depsW).rows.getD 1 []) = some (Val.str "77") := by
  decide

/-- C5 amended: for region tables with unique region codes — the region
code cells are pairwise distinct, a null code (which pandas merge
matches against a null department key) also occurring at most once —
`merge_regions_and_departments` returns exactly one row per department
row, with exactly the four columns `code_reg`, `name_reg`, `code_dep`,
`name_dep` in that order; a department whose region code matches no
region keeps its row with its own region code and a null region NAME
(left-join semantics; the join key is never nulled). -/
theorem C5_area_merge (G D : List Row) (hD : ∀ d ∈ D, d.length = 3)
    (hnd : (G.map (fun g => g.getD 0 none)).Nodup) :
    (merge_regions_and_departments ⟨regCols, G⟩ ⟨depCols, D⟩).cols = radCols ∧
    (merge_regions_and_departments ⟨regCols, G⟩ ⟨depCols, D⟩).rows.length = D.length ∧
    (merge_regions_and_departments ⟨regCols, G⟩ ⟨depCols, D⟩).rows = D.map (regJoinRow G) := by
  rw [merge_regions_and_departments_fixed G D hD]
  have hrows : (D.flatMap (fun d =>
      if (G.filter (fun g => cellKeyEq (d.getD 2 none) (g.getD 0 none))).isEmpty
      then [[d.getD 2 none, none, d.getD 0 none, d.getD 1 none]]
      else (G.filter (fun g => cellKeyEq (d.getD 2 none) (g.getD 0 none))).map
        (fun g => [d.getD 2 none, g.getD 1 none, d.getD 0 none, d.getD 1 none]))) =
      D.map (regJoinRow G) := by
    apply flatMap_eq_map_of_forall
    intro d hd
    by_cases he : (G.filter (fun g => cellKeyEq (d.getD 2 none) (g.getD 0 none))).isEmpty = true
    · rw [if_pos he]
      have hf : G.find? (fun g => cellKeyEq (d.getD 2 none) (g.getD 0 none)) = none := by
        rw [find?_eq_head?_filter, List.isEmpty_iff.mp he]
        rfl
      unfold regJoinRow
      rw [hf]
      rfl
    · rw [if_neg he]
      have hle : (G.filter (fun g => cellKeyEq (d.getD 2 none) (g.getD 0 none))).length ≤ 1 :=
        length_filter_keyEq_le_one (fun g => g.getD 0 none) G hnd (d.getD 2 none)
      obtain ⟨g0, hg0⟩ : ∃ g0,
          G.filter (fun g => cellKeyEq (d.getD 2 none) (g.getD 0 none)) = [g0] := by
        cases hF : G.filter (fun g => cellKeyEq (d.getD 2 none) (g.getD 0 none)) with
        | nil => rw [hF] at he; simp at he
        | cons x xs =>
          cases xs with
          | nil => exact ⟨x, rfl⟩
          | cons y ys => rw [hF] at hle; simp at hle
      have hfind : G.find? (fun g => cellKeyEq (d.getD 2 none) (g.getD 0 none)) = some g0 := by
        rw [find?_eq_head?_filter, hg0]
        rfl
      rw [hg0]
      unfold regJoinRow
      rw [hfind]
      rfl
  exact ⟨rfl, by rw [hrows, List.length_map], hrows⟩

/-- C5 witness: the area merge of the concrete region/department tables
equals its left-join description row for row. -/
theorem C5_area_merge_witness :
    (merge_regions_and_departments ⟨regCols, regsW.rows⟩ ⟨depCols, depsW.rows⟩).rows =
      depsW.rows.map (regJoinRow regsW.rows) :=
  (C5_area_merge regsW.rows depsW.rows (by decide) (by decide)).2.2

/-- C8: `plot_referendum_map` left-joins the regional results onto the
geometry table with the geometry side on the left: when the result
table's region codes are unique — the `code_reg` cells pairwise
distinct, a null code (which pandas merge matches against a null
geometry key) also occurring at most once — every geometry row yields
exactly one output row — its matching result row extended with the
ratio, or all null result fields (and a null ratio) when no result
matches — and the output carries a `ratio` column. -/
theorem C8_geometry_left_join (G R : List Row) (hG : ∀ g ∈ G, g.length = 3)
    (hR7 : ∀ r ∈ R, r.length = 7)
    (hnd : (R.map (fun r => r.getD 0 none)).Nodup) :
    (plot_referendum_map ⟨geoCols, G⟩ ⟨resCols, R⟩).cols = mapCols ∧
    "ratio" ∈ (plot_referendum_map ⟨geoCols, G⟩ ⟨resCols, R⟩).cols ∧
    (plot_referendum_map ⟨geoCols, G⟩ ⟨resCols, R⟩).rows.length = G.length ∧
    (plot_referendum_map ⟨geoCols, G⟩ ⟨resCols, R⟩).rows =
      G.map (fun g =>
        match R.find? (fun r => cellKeyEq (g.getD 0 none) (r.getD 0 none)) with
        | some r => mapRowM g r
        | none => mapRowU g) := by
  rw [plot_referendum_map_fixed G R hG hR7]
  simp only [resMatches]
  have hrows : (G.flatMap (fun g =>
      if (R.filter (fun r => cellKeyEq (g.getD 0 none) (r.getD 0 none))).isEmpty
      then [mapRowU g]
      else (R.filter (fun r => cellKeyEq (g.getD 0 none) (r.getD 0 none))).map
        (fun r => mapRowM g r))) =
      G.map (fun g =>
        match R.find? (fun r => cellKeyEq (g.getD 0 none) (r.getD 0 none)) with
        | some r => mapRowM g r
        | none => mapRowU g) := by
    apply flatMap_eq_map_of_forall
    intro g hg
    by_cases he : (R.filter (fun r => cellKeyEq (g.getD 0 none) (r.getD 0 none))).isEmpty = true
    · rw [if_pos he]
      have hf : R.find? (fun r => cellKeyEq (g.getD 0 none) (r.getD 0 none)) = none := by
        rw [find?_eq_head?_filter, List.isEmpty_iff.mp he]
        rfl
      rw [hf]
    · rw [if_neg he]
      have hle : (R.filter (fun r => cellKeyEq (g.getD 0 none) (r.getD 0 none))).length ≤ 1 :=
        length_filter_keyEq_le_one (fun r => r.getD 0 none) R hnd (g.getD 0 none)
      obtain ⟨r0, hr0⟩ : ∃ r0,
          R.filter (fun r => cellKeyEq (g.getD 0 none) (r.getD 0 none)) = [r0] := by
        cases hF : R.filter (fun r => cellKeyEq (g.getD 0 none) (r.getD 0 none)) with
        | nil => rw [hF] at he; simp at he
        | cons x xs =>
          cases xs with
          | nil => exact ⟨x, rfl⟩
          | cons y ys => rw [hF] at hle; simp at hle
      have hfind : R.find? (fun r => cellKeyEq (g.getD 0 none) (r.getD 0 none)) = some r0 := by
        rw [find?_eq_head?_filter, hr0]
        rfl
      rw [hr0, hfind]
      rfl
  exact ⟨trivial, (by decide : "ratio" ∈ mapCols), by rw [hrows, List.length_map], hrows⟩

unseal Rat.add Rat.mul Rat.inv in
/-- C8 witness: the map join of the concrete geometry/results tables
equals its left-join description row for row (region `"11"` unmatched,
all result fields and ratio null). -/
theorem C8_geometry_left_join_witness :
    (plot_referendum_map ⟨geoCols, geoW.rows⟩ ⟨resCols, resW.rows⟩).rows =
      geoW.rows.map (fun g =>
        match resW.rows.find? (fun r => cellKeyEq (g.getD 0 none) (r.getD 0 none)) with
        | some r => mapRowM g r
        | none => mapRowU g) :=
  (C8_geometry_left_join geoW.rows resW.rows (by decide) (by decide) (by decide)).2.2.2

/-- C4: in the table returned by `plot_referendum_map`, whenever a row
carries numeric Choice A and Choice B cells `x`, `y`: if the counts are
nonnegative with `x + y > 0` the ratio cell equals `x / (x + y)` and
lies in `[0, 1]`; if both are zero the ratio cell is null (the undefined
0/0 float) — and the function is total, so no error is raised. -/
theorem C4_ratio_bounds (G R : List Row) (hG : ∀ g ∈ G, g.length = 3)
    (hR7 : ∀ r ∈ R, r.length = 7) :
    ∀ row ∈ (plot_referendum_map ⟨geoCols, G⟩ ⟨resCols, R⟩).rows,
      ∀ x y : Rat,
        getCol mapCols "Choice A" row = some (Val.num x) →
        getCol mapCols "Choice B" row = some (Val.num y) →
        ((0 ≤ x → 0 ≤ y → 0 < x + y →
          getCol mapCols "ratio" row = some (Val.num (x / (x + y))) ∧
          0 ≤ x / (x + y) ∧ x / (x + y) ≤ 1) ∧
        (x = 0 → y = 0 → getCol mapCols "ratio" row = none)) := by
  rw [plot_referendum_map_fixed G R hG hR7]
  intro row hrow x y hx hy
  obtain ⟨g, hgG, hin⟩ := List.mem_flatMap.mp hrow
  obtain ⟨g0, g1, g2, rfl⟩ := exists_eta3 g (hG g hgG)
  by_cases he : (resMatches R [g0, g1, g2]).isEmpty = true
  · rw [if_pos he] at hin
    rw [List.mem_singleton.mp hin] at hx
    exact Option.noConfusion (show (none : Cell) = some (Val.num x) from hx)
  · rw [if_neg he] at hin
    obtain ⟨r, hrM, rfl⟩ := List.mem_map.mp hin
    have hrR : r ∈ R := (List.mem_filter.mp (show r ∈ R.filter _ from hrM)).1
    obtain ⟨r0, r1, r2, r3, r4, r5, r6, rfl⟩ := exists_eta7 r (hR7 r hrR)
    have hx5 : r5 = some (Val.num x) := hx
    have hy6 : r6 = some (Val.num y) := hy
    subst hx5
    subst hy6
    constructor
    · intro hx0 hy0 hxy
      have hne : x + y ≠ 0 := ne_of_gt hxy
      refine ⟨?_, div_nonneg hx0 (le_of_lt hxy), ?_⟩
      · show cellDiv (some (Val.num x)) (cellAdd (some (Val.num x)) (some (Val.num y))) =
          some (Val.num (x / (x + y)))
        simp only [cellAdd, cellDiv]
        rw [if_neg hne]
      · rw [div_le_one hxy]
        linarith
    · intro hx0 hy0
      subst hx0
      subst hy0
      show cellDiv (some (Val.num 0)) (cellAdd (some (Val.num 0)) (some (Val.num 0))) = none
      simp [cellAdd, cellDiv]

unseal Rat.add Rat.mul Rat.inv in
/-- C4 witness: the region-84 map row (600 against 400) has ratio
600/1000, which lies in [0, 1]. -/
theorem C4_ratio_bounds_witness :
    getCol mapCols "ratio" (mapRowM
      [some (Val.str "84"), some (Val.str "ARA"), some (Val.str "poly84")]
      [some (Val.str "84"), some (Val.str "ARA"), some (Val.num 1000), some (Val.num 0),
       some (Val.num 0), some (Val.num 600), some (Val.num 400)]) =
      some (Val.num ((600 : Rat) / (600 + 400))) ∧
    0 ≤ (600 : Rat) / (600 + 400) ∧ (600 : Rat) / (600 + 400) ≤ 1 :=
  ((C4_ratio_bounds geoW.rows resW.rows (by decide) (by decide))
    (mapRowM [some (Val.str "84"), some (Val.str "ARA"), some (Val.str "poly84")]
      [some (Val.str "84"), some (Val.str "ARA"), some (Val.num 1000), some (Val.num 0),
       some (Val.num 0), some (Val.num 600), some (Val.num 400)])
    (by decide) 600 400 (by decide) (by decide)).1
    (by norm_num) (by norm_num) (by norm_num)

/-- C3: `compute_referendum_result_by_regions` is keyed by region code
with exactly one row per distinct non-null region code of its input
(distinct keys, row count = number of distinct codes, a key appears iff
it appears in the input); the row of region `v` carries the first
non-null region name of the group and the sums of the five count
columns over all rows of that region. -/
theorem C3_aggregation (df : DF) :
    (compute_referendum_result_by_regions df).cols =
      ["code_reg", "name_reg", "Registered", "Abstentions", "Null",
       "Choice A", "Choice B"] ∧
    ((compute_referendum_result_by_regions df).rows.map (fun r => r.getD 0 none)).Nodup ∧
    (compute_referendum_result_by_regions df).rows.length =
      ((df.rows.filterMap (fun r => getCol df.cols "code_reg" r)).dedup).length ∧
    (∀ v : Val,
      some v ∈ (compute_referendum_result_by_regions df).rows.map (fun r => r.getD 0 none) ↔
      some v ∈ df.rows.map (fun r => getCol df.cols "code_reg" r)) ∧
    ∀ v ∈ groupKeys df "code_reg",
      rowForKey (compute_referendum_result_by_regions df) v =
        [some v,
         ((groupRows df "code_reg" v).map (fun r => getCol df.cols "name_reg" r)).findSome? id,
         some (Val.num (regionSum df v "Registered")),
         some (Val.num (regionSum df v "Abstentions")),
         some (Val.num (regionSum df v "Null")),
         some (Val.num (regionSum df v "Choice A")),
         some (Val.num (regionSum df v "Choice B"))] := by
  refine ⟨rfl, ?_, ?_, ?_, ?_⟩
  · rw [compute_rows_keys]
    exact List.Nodup.map (Option.some_injective Val) (groupKeys_nodup df "code_reg")
  · rw [compute_rows_eq df, List.length_map]
    exact (sortVals_perm _).length_eq
  · intro v
    rw [compute_rows_keys]
    constructor
    · intro hv
      obtain ⟨w, hw, hww⟩ := List.mem_map.mp hv
      have hwv : w = v := Option.some.inj hww
      have hv2 : v ∈ df.rows.filterMap (fun r => getCol df.cols "code_reg" r) := by
        rw [← hwv]
        exact List.mem_dedup.mp ((sortVals_perm _).mem_iff.mp hw)
      obtain ⟨r, hr, hrv⟩ := List.mem_filterMap.mp hv2
      exact List.mem_map.mpr ⟨r, hr, hrv⟩
    · intro hv
      obtain ⟨r, hr, hrv⟩ := List.mem_map.mp hv
      have hvf : v ∈ df.rows.filterMap (fun r => getCol df.cols "code_reg" r) :=
        List.mem_filterMap.mpr ⟨r, hr, hrv⟩
      exact List.mem_map.mpr
        ⟨v, (sortVals_perm _).mem_iff.mpr (List.mem_dedup.mpr hvf), rfl⟩
  · intro v hv
    unfold rowForKey
    rw [compute_rows_eq df]
    rw [find?_map_key _ _ v hv]
    rfl

/-- C3 witness: the region-84 output row of the concrete results table
is the key, first name and column sums of its group. -/
theorem C3_aggregation_witness :
    rowForKey (compute_referendum_result_by_regions resW) (Val.str "84") =
      [some (Val.str "84"),
       ((groupRows resW "code_reg" (Val.str "84")).map
         (fun r => getCol resW.cols "name_reg" r)).findSome? id,
       some (Val.num (regionSum resW (Val.str "84") "Registered")),
       some (Val.num (regionSum resW (Val.str "84") "Abstentions")),
       some (Val.num (regionSum resW (Val.str "84") "Null")),
       some (Val.num (regionSum resW (Val.str "84") "Choice A")),
       some (Val.num (regionSum resW (Val.str "84") "Choice B"))] :=
  (C3_aggregation resW).2.2.2.2 (Val.str "84") (by decide)

/-! ## Frame facts for the heap model -/

theorem heapGet_append_lt (h : Heap) (d : DF) (l : Nat) (hl : l < h.length) :
    heapGet (h ++ [d]) l = heapGet h l := by
  show (h ++ [d]).getD l ⟨[], []⟩ = h.getD l ⟨[], []⟩
  exact getD_append_lt h [d] ⟨[], []⟩ l hl

theorem heapGet_set_ne (h : Heap) (i : Nat) (d : DF) (l : Nat) (hne : i ≠ l) :
    heapGet (h.set i d) l = heapGet h l := by
  show (h.set i d).getD l ⟨[], []⟩ = h.getD l ⟨[], []⟩
  exact getD_set_ne h i l d ⟨[], []⟩ hne

theorem mrd_state_frame (h : Heap) (i j l : Nat) (hl : l < h.length) :
    heapGet ((merge_regions_and_departments_state h i j).1) l = heapGet h l := by
  simp only [merge_regions_and_departments_state]
  rw [heapGet_append_lt _ _ _ (by simp; omega)]
  rw [heapGet_append_lt _ _ _ (by simp; omega)]
  rw [heapGet_append_lt _ _ _ (by simp; omega)]
  exact heapGet_append_lt _ _ _ hl

theorem mras_state_frame (h : Heap) (i j l : Nat) (hl : l < h.length) :
    heapGet ((merge_referendum_and_areas_state h i j).1) l = heapGet h l := by
  simp only [merge_referendum_and_areas_state]
  rw [heapGet_append_lt _ _ _ (by simp [List.length_set]; omega)]
  rw [heapGet_append_lt _ _ _ (by simp [List.length_set]; omega)]
  rw [heapGet_append_lt _ _ _ (by simp [List.length_set]; omega)]
  rw [heapGet_append_lt _ _ _ (by simp [List.length_set]; omega)]
  rw [heapGet_set_ne _ _ _ _ (by simp [List.length_set]; omega)]
  rw [heapGet_append_lt _ _ _ (by simp [List.length_set]; omega)]
  rw [heapGet_set_ne _ _ _ _ (by omega)]
  rw [heapGet_set_ne _ _ _ _ (by omega)]
  exact heapGet_append_lt _ _ _ hl

theorem crr_state_frame (h : Heap) (i l : Nat) (hl : l < h.length) :
    heapGet ((compute_referendum_result_by_regions_state h i).1) l = heapGet h l := by
  simp only [compute_referendum_result_by_regions_state]
  exact heapGet_append_lt _ _ _ hl

theorem prm_state_frame (h : Heap) (geo : DF) (i l : Nat) (hl : l < h.length) :
    heapGet ((plot_referendum_map_state h geo i).1) l = heapGet h l := by
  simp only [plot_referendum_map_state]
  rw [heapGet_set_ne _ _ _ _ (by simp; omega)]
  rw [heapGet_append_lt _ _ _ (by simp; omega)]
  exact heapGet_append_lt _ _ _ hl

/-- C9: no pipeline stage mutates its input tables. On the explicit
heap-of-frames model — where `.copy()` and every frame-producing
expression allocate, and column assignment writes in place through the
local variable — each of the four stages leaves every previously
allocated heap cell unchanged, and returns a freshly allocated location
(a newly derived table). -/
theorem C9_no_input_mutation (h : Heap) (i j rl l : Nat) (geo : DF) (hl : l < h.length) :
    (heapGet ((merge_regions_and_departments_state h i j).1) l = heapGet h l ∧
     h.length ≤ (merge_regions_and_departments_state h i j).2) ∧
    (heapGet ((merge_referendum_and_areas_state h i j).1) l = heapGet h l ∧
     h.length ≤ (merge_referendum_and_areas_state h i j).2) ∧
    (heapGet ((compute_referendum_result_by_regions_state h rl).1) l = heapGet h l ∧
     h.length ≤ (compute_referendum_result_by_regions_state h rl).2) ∧
    (heapGet ((plot_referendum_map_state h geo rl).1) l = heapGet h l ∧
     h.length ≤ (plot_referendum_map_state h geo rl).2) := by
  refine ⟨⟨mrd_state_frame h i j l hl, ?_⟩, ⟨mras_state_frame h i j l hl, ?_⟩,
    ⟨crr_state_frame h rl l hl, ?_⟩, ⟨prm_state_frame h geo rl l hl, ?_⟩⟩
  · simp [merge_regions_and_departments_state]
  · simp [merge_referendum_and_areas_state, List.length_set]
  · simp [compute_referendum_result_by_regions_state]
  · simp [plot_referendum_map_state]

/-- C9 witness: on a concrete two-frame heap, the referendum merger
leaves the first input frame unchanged. -/
theorem C9_no_input_mutation_witness :
    heapGet ((merge_referendum_and_areas_state heapW 0 1).1) 0 = heapGet heapW 0 :=
  ((C9_no_input_mutation heapW 0 1 0 0 geoW (by decide)).2.1).1

end PandasQuestions
